import Mathlib

/-!
Verification of the match-and-resolve pipeline of the code2prompt
notebook (prompt_exp_fixed.ipynb).

The pipeline has four pure pieces, embedded here from the source:

* load_api_key       : reads an API key file, re-raising failures as
                       RuntimeError; file access is abstracted as a
                       function from paths to read results.
* build_comparison_prompt : builds the instruction string listing each
                       candidate prefixed with a 1-based label.
* extract_query_number : regex search for the pattern Query followed by
                       one space and a run of decimal digits, returning
                       the first match parsed base 10.  The Python
                       digit class is modelled over the decimal digits
                       0-9 (Char.isDigit), the class relevant to the
                       prompts the notebook builds.
* resolveSelection / find_paragraph_index : the selection step
                       subset[query_number - 1] with Python indexing
                       semantics (negative indices wrap, out-of-range
                       raises, modelled as none), and the linear
                       first-occurrence search paragraphs.index.
-/

/-- Base-10 value of a run of decimal digit characters, as int() parses
the captured group: fold left, digit value is the code point minus 48. -/
def digitsVal (ds : List Char) : Nat :=
  ds.foldl (fun a c => 10 * a + (c.toNat - 48)) 0

/-- One attempted regex match anchored at the head of the list: the
pattern Query followed by one literal space and at least one decimal
digit, capturing the maximal digit run (greedy), as in the source
re.search (r 'Query (\d+)') tried at a single start position. -/
def queryMatchAt : List Char → Option Nat
  | c0 :: c1 :: c2 :: c3 :: c4 :: c5 :: c6 :: rest =>
    if c0 = 'Q' ∧ c1 = 'u' ∧ c2 = 'e' ∧ c3 = 'r' ∧ c4 = 'y' ∧ c5 = ' ' ∧ c6.isDigit then
      some (digitsVal ((c6 :: rest).takeWhile Char.isDigit))
    else none
  | _ => none

/-- re.search semantics: try the pattern at each start position from the
left, return the value of the first position where it matches. -/
def extractAux : List Char → Option Nat
  | [] => none
  | c :: cs =>
    match queryMatchAt (c :: cs) with
    | some n => some n
    | none => extractAux cs

/-- Embeds extract_query_number from the source: the first
re.search (r 'Query (\d+)') match parsed as an integer, None when there
is no match. -/
def extract_query_number (s : String) : Option Nat :=
  extractAux s.data

/-- Spec-side token test at one position, written from the words of the
spec: the literal token Query-space followed by one or more decimal
digits; the digit run is parsed base 10. -/
def specTokenAt (l : List Char) : Option Nat :=
  if l.take 6 = "Query ".data then
    match (l.drop 6).takeWhile Char.isDigit with
    | [] => none
    | run => some (digitsVal run)
  else none

/-- Header part of the comparison prompt: the fixed text around the
reference code, before the candidate list. -/
def promptHeader (code : String) : String :=
  ("The following code is provided:\n\n" ++ code ++ "\n\n") ++
    "Please identify which query in the list below is the most similar to the code in terms of purpose. The options are:\n\n"

/-- Embeds build_comparison_prompt from the source: the header followed
by one line per candidate, the i-th (0-based) candidate labeled with
i+1, accumulated left to right exactly as the Python loop does. -/
def build_comparison_prompt (code : String) (subset_examples : List String) : String :=
  (subset_examples.enum).foldl
    (fun content p => content ++ ("Query " ++ toString (p.1 + 1) ++ ": " ++ p.2 ++ "\n"))
    (("The following code is provided:\n\n" ++ code ++ "\n\n") ++
      "Please identify which query in the list below is the most similar to the code in terms of purpose. The options are:\n\n")

/-- The line the source appends for the candidate at 0-based position i. -/
def queryLine (i : Nat) (q : String) : String :=
  "Query " ++ toString (i + 1) ++ ": " ++ q ++ "\n"

/-- The block of candidate lines labeled k+1, k+2, ... in order. -/
def labeledLines : Nat → List String → String
  | _, [] => ""
  | k, q :: qs => queryLine k q ++ labeledLines (k + 1) qs

/-- Python sequence indexing: a negative index counts from the end; an
index that is still out of range raises IndexError, modelled as none. -/
def pythonGet (xs : List String) (i : Int) : Option String :=
  let j : Int := if i < 0 then i + xs.length else i
  if 0 ≤ j then xs.get? j.toNat else none

/-- Embeds the selection step subset[query_number - 1] from the source:
no bounds validation, plain Python indexing on the window. -/
def resolveSelection (subset : List String) (query_number : Nat) : Option String :=
  pythonGet subset ((query_number : Int) - 1)

/-- Embeds find_paragraph_index from the source: paragraphs.index, the
linear search returning the first index whose element equals the
reference paragraph, None (after a diagnostic print) when absent. -/
def find_paragraph_index : List String → String → Option Nat
  | [], _ => none
  | p :: ps, t => if p = t then some 0 else (find_paragraph_index ps t).map (· + 1)

/-- Whether t occurs in C at a position outside the window [s, e). -/
def occursOutside (C : List String) (s e : Nat) (t : String) : Bool :=
  (List.range C.length).any fun k =>
    (decide (k < s) || decide (e ≤ k)) && (C.get? k == some t)

/-- Outcome of one attempted file read, abstracting the file system the
notebook touches through open / read. -/
inductive ReadResult where
  | ok (content : String)
  | fileMissing
  | failure (msg : String)
deriving DecidableEq

/-- Result of load_api_key: either the key string or a RuntimeError
carrying a message. -/
inductive KeyResult where
  | key (value : String)
  | runtimeError (msg : String)
deriving DecidableEq

/-- Python str.strip(): remove leading and trailing whitespace
characters (modelled with the whitespace class of Char.isWhitespace). -/
def pyStrip (s : String) : String :=
  String.mk (((s.data.dropWhile Char.isWhitespace).reverse.dropWhile Char.isWhitespace).reverse)

/-- Embeds load_api_key from the source: read the file and strip the
content; FileNotFoundError becomes RuntimeError naming the path, any
other exception becomes RuntimeError wrapping its message. -/
def load_api_key (read : String → ReadResult) (path : String) : KeyResult :=
  match read path with
  | ReadResult.ok content => KeyResult.key (pyStrip content)
  | ReadResult.fileMissing =>
      KeyResult.runtimeError ("API key file '" ++ path ++ "' not found.")
  | ReadResult.failure e =>
      KeyResult.runtimeError ("Error loading API key: " ++ e)

/-- A concrete file system stub for evaluating load_api_key. -/
def readStub (p : String) : ReadResult :=
  if p = "open_ai_API.txt" then ReadResult.ok "  sk-abc\n" else ReadResult.fileMissing

/-! ## Characterization of the linear first-occurrence search -/

/-- find_paragraph_index returns some i exactly when position i holds the
reference text and no earlier position does. -/
theorem find_paragraph_index_eq_some_iff (ps : List String) (t : String) :
    ∀ i, find_paragraph_index ps t = some i ↔
      (ps.get? i = some t ∧ ∀ k, k < i → ps.get? k ≠ some t) := by
  induction ps with
  | nil => intro i; simp [find_paragraph_index]
  | cons p ps ih =>
    intro i
    by_cases hp : p = t
    · subst hp
      simp only [find_paragraph_index, if_pos rfl]
      constructor
      · intro h
        have hi : i = 0 := by simpa using h.symm
        subst hi
        exact ⟨rfl, fun k hk => absurd hk (Nat.not_lt_zero k)⟩
      · rintro ⟨hget, hmin⟩
        cases i with
        | zero => rfl
        | succ m => exact absurd rfl (hmin 0 (Nat.succ_pos m))
    · simp only [find_paragraph_index, if_neg hp]
      cases i with
      | zero =>
        constructor
        · intro h
          rcases Option.map_eq_some'.mp h with ⟨a, _, ha⟩
          omega
        · rintro ⟨hget, _⟩
          exact absurd (Option.some.inj hget) hp
      | succ m =>
        rw [Option.map_eq_some']
        constructor
        · rintro ⟨a, hfa, hao⟩
          have ham : a = m := by omega
          rw [ham] at hfa
          rcases (ih m).mp hfa with ⟨hg, hmin⟩
          refine ⟨by simpa using hg, ?_⟩
          intro k hk
          cases k with
          | zero =>
            intro hc
            exact hp (Option.some.inj hc)
          | succ k' =>
            rw [List.get?_cons_succ]
            exact hmin k' (by omega)
        · rintro ⟨hg, hmin⟩
          refine ⟨m, (ih m).mpr ⟨by simpa using hg, ?_⟩, rfl⟩
          intro k hk
          have := hmin (k + 1) (by omega)
          simpa using this

/-- find_paragraph_index returns none exactly when no position holds the
reference text. -/
theorem find_paragraph_index_eq_none_iff (ps : List String) (t : String) :
    find_paragraph_index ps t = none ↔ ∀ k, ps.get? k ≠ some t := by
  induction ps with
  | nil => simp [find_paragraph_index]
  | cons p ps ih =>
    by_cases hp : p = t
    · subst hp
      simp only [find_paragraph_index, if_pos rfl]
      constructor
      · intro h; cases h
      · intro h
        exact absurd rfl (h 0)
    · simp only [find_paragraph_index, if_neg hp, Option.map_eq_none']
      rw [ih]
      constructor
      · intro h k
        cases k with
        | zero =>
          intro hc
          exact hp (Option.some.inj hc)
        | succ k' =>
          rw [List.get?_cons_succ]
          exact h k'
      · intro h k
        have := h (k + 1)
        simpa using this

/-! ## Claims about the Position Resolver lookup -/

/-- Claim C6: for every full collection and every candidate text that
occurs in it, find_paragraph_index returns the smallest absolute index
whose element equals the candidate text - the first occurrence by
value, even when the text is duplicated at a later position. -/
theorem c6_find_first_occurrence (C : List String) (t : String) (h : t ∈ C) :
    ∃ i, find_paragraph_index C t = some i ∧ C.get? i = some t ∧
      ∀ k, k < i → C.get? k ≠ some t := by
  cases hf : find_paragraph_index C t with
  | none =>
    rcases List.mem_iff_get?.mp h with ⟨n, hn⟩
    exact absurd hn ((find_paragraph_index_eq_none_iff C t).mp hf n)
  | some i =>
    rcases (find_paragraph_index_eq_some_iff C t i).mp hf with ⟨hg, hmin⟩
    exact ⟨i, rfl, hg, hmin⟩

/-- Witness for C6 on a collection with a duplicated text. -/
theorem c6_find_first_occurrence_witness :
    ("a" ∈ ["a", "b", "a"]) ∧
      ∃ i, find_paragraph_index ["a", "b", "a"] "a" = some i ∧
        (["a", "b", "a"] : List String).get? i = some "a" ∧
        ∀ k, k < i → (["a", "b", "a"] : List String).get? k ≠ some "a" :=
  ⟨by decide, c6_find_first_occurrence ["a", "b", "a"] "a" (by decide)⟩

/-- Claim C7: for every full collection and every candidate text absent
from it, find_paragraph_index returns none - a diagnostic result, not
an exception. -/
theorem c7_not_found_is_none (C : List String) (t : String) (h : t ∉ C) :
    find_paragraph_index C t = none := by
  rw [find_paragraph_index_eq_none_iff]
  intro k hk
  exact h (List.mem_iff_get?.mpr ⟨k, hk⟩)

/-- Witness for C7. -/
theorem c7_not_found_is_none_witness :
    ("z" ∉ ["a", "b"]) ∧ find_paragraph_index ["a", "b"] "z" = none :=
  ⟨by decide, c7_not_found_is_none ["a", "b"] "z" (by decide)⟩

/-! ## Claims about the selection step (Position Resolver bounds) -/

/-- Counterexample to claim C2: on a window of size 2, selection index 0
does not fail at all - Python negative indexing makes subset[0 - 1]
return the LAST window element. -/
theorem c2_counterexample :
    resolveSelection ["a", "b"] 0 = some "b" ∧ resolveSelection ["a", "b"] 0 ≠ none := by
  constructor
  · rfl
  · decide

/-- Amended claim C2: the selection step performs no bounds validation.
For a window of size K, selection indices 1..K succeed with element
j-1; selection index 0 also succeeds, returning the last window element
through Python negative indexing; selection indices above K fail with
IndexError (modelled as none), not with an OutOfRangeError. -/
theorem c2_resolver_bounds_amended (xs : List String) (j : Nat) :
    (1 ≤ j → j ≤ xs.length →
      resolveSelection xs j = xs.get? (j - 1) ∧ resolveSelection xs j ≠ none) ∧
    (xs ≠ [] →
      resolveSelection xs 0 = xs.get? (xs.length - 1) ∧ resolveSelection xs 0 ≠ none) ∧
    (xs.length < j → resolveSelection xs j = none) := by
  refine ⟨?_, ?_, ?_⟩
  · intro h1 h2
    have h0 : ¬ ((j : Int) - 1 < 0) := by omega
    have hp : (0 : Int) ≤ (j : Int) - 1 := by omega
    have ht : ((j : Int) - 1).toNat = j - 1 := by omega
    have hres : resolveSelection xs j = xs.get? (j - 1) := by
      simp only [resolveSelection, pythonGet, if_neg h0, if_pos hp, ht]
    refine ⟨hres, ?_⟩
    rw [hres]
    have hlt : j - 1 < xs.length := by omega
    rw [List.get?_eq_get hlt]
    simp
  · intro hne
    have hn : 0 < xs.length := List.length_pos.mpr hne
    have h0 : ((0 : Nat) : Int) - 1 < 0 := by omega
    have hp : (0 : Int) ≤ ((0 : Nat) : Int) - 1 + (xs.length : Int) := by omega
    have ht : (((0 : Nat) : Int) - 1 + (xs.length : Int)).toNat = xs.length - 1 := by omega
    have hres : resolveSelection xs 0 = xs.get? (xs.length - 1) := by
      simp only [resolveSelection, pythonGet, if_pos h0, if_pos hp, ht]
    refine ⟨hres, ?_⟩
    rw [hres]
    have hlt : xs.length - 1 < xs.length := by omega
    rw [List.get?_eq_get hlt]
    simp
  · intro hgt
    have h0 : ¬ ((j : Int) - 1 < 0) := by omega
    have hp : (0 : Int) ≤ (j : Int) - 1 := by omega
    have ht : ((j : Int) - 1).toNat = j - 1 := by omega
    have hres : resolveSelection xs j = xs.get? (j - 1) := by
      simp only [resolveSelection, pythonGet, if_neg h0, if_pos hp, ht]
    rw [hres]
    exact List.get?_eq_none.mpr (by omega)

/-- Witness for the amended C2 on a window of size 2. -/
theorem c2_resolver_bounds_amended_witness :
    resolveSelection ["a", "b"] 1 = some "a" ∧
      resolveSelection ["a", "b"] 0 = some "b" ∧
      resolveSelection ["a", "b"] 3 = none := by
  refine ⟨?_, ?_, ?_⟩
  · exact (((c2_resolver_bounds_amended ["a", "b"] 1).1 (by decide) (by decide)).1).trans rfl
  · exact (((c2_resolver_bounds_amended ["a", "b"] 0).2.1 (by decide)).1).trans rfl
  · exact (c2_resolver_bounds_amended ["a", "b"] 3).2.2 (by decide)

/-! ## Claims about the Prompt Builder on empty input -/

/-- Counterexample to claim C3: with an empty candidate sequence the
builder does not fail at all - it returns the header and instruction
text with no Query lines. -/
theorem c3_counterexample :
    build_comparison_prompt "print(1)" [] =
      "The following code is provided:\n\nprint(1)\n\nPlease identify which query in the list below is the most similar to the code in terms of purpose. The options are:\n\n" :=
  rfl

/-- Amended claim C3: build_comparison_prompt performs no validation of
its candidates; for an empty candidates sequence it returns the header
and instruction text unchanged (no Query lines) instead of failing with
an InvalidInputError, and the builder itself makes no external model
call (it is a pure string function). -/
theorem c3_builder_empty_amended (code : String) :
    build_comparison_prompt code [] = promptHeader code :=
  rfl

/-! ## Claim about API key loading -/

/-- Claim C9: load_api_key turns a missing key file into a RuntimeError
whose message names the path, turns any other read failure into a
RuntimeError wrapping the underlying message, never returns a key in
either failure case, and on success returns the file content with
surrounding whitespace stripped. -/
theorem c9_load_api_key (read : String → ReadResult) (path : String) :
    (read path = ReadResult.fileMissing →
      load_api_key read path =
        KeyResult.runtimeError ("API key file '" ++ path ++ "' not found.") ∧
      ∀ v, load_api_key read path ≠ KeyResult.key v) ∧
    (∀ e, read path = ReadResult.failure e →
      load_api_key read path =
        KeyResult.runtimeError ("Error loading API key: " ++ e) ∧
      ∀ v, load_api_key read path ≠ KeyResult.key v) ∧
    (∀ s, read path = ReadResult.ok s →
      load_api_key read path = KeyResult.key (pyStrip s)) := by
  refine ⟨?_, ?_, ?_⟩
  · intro h
    refine ⟨by simp [load_api_key, h], ?_⟩
    intro v hc
    rw [load_api_key, h] at hc
    exact KeyResult.noConfusion hc
  · intro e h
    refine ⟨by simp [load_api_key, h], ?_⟩
    intro v hc
    rw [load_api_key, h] at hc
    exact KeyResult.noConfusion hc
  · intro s h
    simp [load_api_key, h]

/-- Witness for C9 on a concrete stub file system. -/
theorem c9_load_api_key_witness :
    load_api_key readStub "open_ai_API.txt" = KeyResult.key "sk-abc" ∧
      load_api_key readStub "missing.txt" =
        KeyResult.runtimeError ("API key file 'missing.txt' not found.") := by
  constructor
  · exact ((c9_load_api_key readStub "open_ai_API.txt").2.2 "  sk-abc\n" rfl).trans
      (by decide)
  · exact (((c9_load_api_key readStub "missing.txt").1 rfl).1).trans rfl

/-! ## Claim about the Resolver round-trip -/

/-- For a positive selection index the selection step is a plain 0-based
lookup at j - 1. -/
theorem resolveSelection_of_pos (xs : List String) (j : Nat) (h : 1 ≤ j) :
    resolveSelection xs j = xs.get? (j - 1) := by
  have h0 : ¬ ((j : Int) - 1 < 0) := by omega
  have hp : (0 : Int) ≤ (j : Int) - 1 := by omega
  have ht : ((j : Int) - 1).toNat = j - 1 := by omega
  simp only [resolveSelection, pythonGet, if_neg h0, if_pos hp, ht]

/-- Counterexample to claim C5: the collection ["a", "a"] with window
[0, 2) and in-window selection 2.  The selected text "a" occurs nowhere
outside the window (the window is the whole collection), yet resolving
returns absolute index 0, not s + (j - 1) = 1, because the text is
duplicated EARLIER INSIDE the window and the linear search returns the
first occurrence by value. -/
theorem c5_counterexample :
    occursOutside ["a", "a"] 0 2 "a" = false ∧
      resolveSelection (((["a", "a"] : List String).drop 0).take (2 - 0)) 2 = some "a" ∧
      find_paragraph_index ["a", "a"] "a" = some 0 ∧
      find_paragraph_index ["a", "a"] "a" ≠ some (0 + (2 - 1)) := by
  refine ⟨rfl, rfl, rfl, by decide⟩

/-- Amended claim C5: the round-trip holds once the selected text also
has no duplicate at any EARLIER position of the collection (inside the
window included): if the window is C[s, e), the in-window selection j is
in 1..(e-s), and the selected text occurs at no absolute index below
s + (j - 1), then resolving returns absolute index s + (j - 1). -/
theorem c5_roundtrip_amended (C : List String) (s e j : Nat) (t : String)
    (he : e ≤ C.length) (hse : s < e) (hj1 : 1 ≤ j) (hje : j ≤ e - s)
    (ht : ((C.drop s).take (e - s)).get? (j - 1) = some t)
    (hfirst : ∀ k, k < s + (j - 1) → C.get? k ≠ some t) :
    resolveSelection ((C.drop s).take (e - s)) j = some t ∧
      find_paragraph_index C t = some (s + (j - 1)) := by
  have hjlt : j - 1 < e - s := by omega
  have hw : ((C.drop s).take (e - s)).get? (j - 1) = C.get? (s + (j - 1)) := by
    rw [List.get?_take hjlt, List.get?_drop]
  have hC : C.get? (s + (j - 1)) = some t := by rw [← hw]; exact ht
  refine ⟨?_, ?_⟩
  · rw [resolveSelection_of_pos _ _ hj1]
    exact ht
  · exact (find_paragraph_index_eq_some_iff C t (s + (j - 1))).mpr ⟨hC, hfirst⟩

/-- Witness for the amended C5: the end-to-end scenario of the spec -
collection ["a","b","c","d","e"], window [2, 5), selection 2, candidate
"d", absolute index 3. -/
theorem c5_roundtrip_amended_witness :
    resolveSelection (((["a", "b", "c", "d", "e"] : List String).drop 2).take (5 - 2)) 2 =
        some "d" ∧
      find_paragraph_index ["a", "b", "c", "d", "e"] "d" = some (2 + (2 - 1)) :=
  c5_roundtrip_amended ["a", "b", "c", "d", "e"] 2 5 2 "d" (by decide) (by decide)
    (by decide) (by decide) rfl (by decide)

/-! ## Claims about the Selection Extractor -/

/-- The source-side single-position match agrees with the spec-side
single-position token test. -/
theorem queryMatchAt_eq_specTokenAt (l : List Char) :
    queryMatchAt l = specTokenAt l := by
  have hQ : "Query ".data = ['Q', 'u', 'e', 'r', 'y', ' '] := rfl
  match l with
  | [] => rfl
  | [c0] =>
    simp only [queryMatchAt, specTokenAt, hQ]
    split
    · rfl
    · rfl
  | [c0, c1] =>
    simp only [queryMatchAt, specTokenAt, hQ]
    split
    · rfl
    · rfl
  | [c0, c1, c2] =>
    simp only [queryMatchAt, specTokenAt, hQ]
    split
    · rfl
    · rfl
  | [c0, c1, c2, c3] =>
    simp only [queryMatchAt, specTokenAt, hQ]
    split
    · rfl
    · rfl
  | [c0, c1, c2, c3, c4] =>
    simp only [queryMatchAt, specTokenAt, hQ]
    split
    · rfl
    · rfl
  | [c0, c1, c2, c3, c4, c5] =>
    simp only [queryMatchAt, specTokenAt, hQ]
    split
    · rfl
    · rfl
  | c0 :: c1 :: c2 :: c3 :: c4 :: c5 :: c6 :: rest =>
    by_cases h6 : c0 = 'Q' ∧ c1 = 'u' ∧ c2 = 'e' ∧ c3 = 'r' ∧ c4 = 'y' ∧ c5 = ' '
    · obtain ⟨rfl, rfl, rfl, rfl, rfl, rfl⟩ := h6
      have hc : ('Q' :: 'u' :: 'e' :: 'r' :: 'y' :: ' ' :: c6 :: rest).take 6 =
          ['Q', 'u', 'e', 'r', 'y', ' '] := rfl
      by_cases hd : c6.isDigit
      · simp only [queryMatchAt, specTokenAt, hQ]
        rw [if_pos (by simp [hd]), if_pos hc]
        change some (digitsVal ((c6 :: rest).takeWhile Char.isDigit)) =
          (match (c6 :: rest).takeWhile Char.isDigit with
           | [] => none
           | run => some (digitsVal run))
        rw [List.takeWhile_cons_of_pos hd]
      · simp only [queryMatchAt, specTokenAt, hQ]
        rw [if_neg (by simp [hd]), if_pos hc]
        change (none : Option Nat) =
          (match (c6 :: rest).takeWhile Char.isDigit with
           | [] => none
           | run => some (digitsVal run))
        rw [List.takeWhile_cons_of_neg hd]
    · have h7 : ¬ (c0 = 'Q' ∧ c1 = 'u' ∧ c2 = 'e' ∧ c3 = 'r' ∧ c4 = 'y' ∧ c5 = ' ' ∧
          c6.isDigit = true) := by
        intro h
        exact h6 ⟨h.1, h.2.1, h.2.2.1, h.2.2.2.1, h.2.2.2.2.1, h.2.2.2.2.2.1⟩
      have hc : ¬ ((c0 :: c1 :: c2 :: c3 :: c4 :: c5 :: c6 :: rest).take 6 = "Query ".data) := by
        intro h
        rw [hQ] at h
        simp only [List.take, List.cons.injEq] at h
        exact h6 ⟨h.1, h.2.1, h.2.2.1, h.2.2.2.1, h.2.2.2.2.1, h.2.2.2.2.2.1⟩
      simp only [queryMatchAt, specTokenAt]
      rw [if_neg h7, if_neg hc]

/-- Scan characterization, positive case: extractAux returns some n
exactly when some start position carries the token with value n and
every earlier start position carries no token. -/
theorem extractAux_eq_some_iff (l : List Char) :
    ∀ n, extractAux l = some n ↔
      ∃ i, specTokenAt (l.drop i) = some n ∧
        ∀ j, j < i → specTokenAt (l.drop j) = none := by
  induction l with
  | nil =>
    intro n
    constructor
    · intro h
      cases h
    · rintro ⟨i, hi, _⟩
      rw [List.drop_nil] at hi
      have hnone : specTokenAt ([] : List Char) = none := by decide
      rw [hnone] at hi
      cases hi
  | cons c cs ih =>
    intro n
    cases h : specTokenAt (c :: cs) with
    | some m =>
      have hq : queryMatchAt (c :: cs) = some m :=
        (queryMatchAt_eq_specTokenAt (c :: cs)).trans h
      have he : extractAux (c :: cs) = some m := by
        simp only [extractAux, hq]
      constructor
      · intro hn
        rw [he] at hn
        refine ⟨0, ?_, ?_⟩
        · rw [List.drop_zero, h, ← hn]
        · intro j hj
          exact absurd hj (Nat.not_lt_zero j)
      · rintro ⟨i, hi, hmin⟩
        cases i with
        | zero =>
          rw [List.drop_zero, h] at hi
          rw [he, hi]
        | succ i' =>
          have := hmin 0 (Nat.succ_pos i')
          rw [List.drop_zero, h] at this
          cases this
    | none =>
      have hq : queryMatchAt (c :: cs) = none :=
        (queryMatchAt_eq_specTokenAt (c :: cs)).trans h
      have he : extractAux (c :: cs) = extractAux cs := by
        simp only [extractAux, hq]
      rw [he, ih n]
      constructor
      · rintro ⟨i, hi, hmin⟩
        refine ⟨i + 1, ?_, ?_⟩
        · rwa [List.drop_succ_cons]
        · intro j hj
          cases j with
          | zero => rwa [List.drop_zero]
          | succ j' =>
            rw [List.drop_succ_cons]
            exact hmin j' (by omega)
      · rintro ⟨i, hi, hmin⟩
        cases i with
        | zero =>
          rw [List.drop_zero, h] at hi
          cases hi
        | succ i' =>
          rw [List.drop_succ_cons] at hi
          refine ⟨i', hi, ?_⟩
          intro j hj
          have := hmin (j + 1) (by omega)
          rwa [List.drop_succ_cons] at this

/-- Scan characterization, negative case: extractAux returns none
exactly when no start position carries the token. -/
theorem extractAux_eq_none_iff (l : List Char) :
    extractAux l = none ↔ ∀ i, specTokenAt (l.drop i) = none := by
  induction l with
  | nil =>
    constructor
    · intro _ i
      rw [List.drop_nil]
      decide
    · intro _
      rfl
  | cons c cs ih =>
    cases h : specTokenAt (c :: cs) with
    | some m =>
      have hq : queryMatchAt (c :: cs) = some m :=
        (queryMatchAt_eq_specTokenAt (c :: cs)).trans h
      have he : extractAux (c :: cs) = some m := by
        simp only [extractAux, hq]
      constructor
      · intro hn
        rw [he] at hn
        cases hn
      · intro hall
        have := hall 0
        rw [List.drop_zero, h] at this
        cases this
    | none =>
      have hq : queryMatchAt (c :: cs) = none :=
        (queryMatchAt_eq_specTokenAt (c :: cs)).trans h
      have he : extractAux (c :: cs) = extractAux cs := by
        simp only [extractAux, hq]
      rw [he, ih]
      constructor
      · intro hall i
        cases i with
        | zero => rwa [List.drop_zero]
        | succ i' =>
          rw [List.drop_succ_cons]
          exact hall i'
      · intro hall i
        have := hall (i + 1)
        rwa [List.drop_succ_cons] at this

/-- All-digit lists are their own maximal digit run. -/
theorem takeWhile_all {α : Type} (p : α → Bool) :
    ∀ l : List α, (∀ c ∈ l, p c) → l.takeWhile p = l := by
  intro l
  induction l with
  | nil => intro _; rfl
  | cons a l ih =>
    intro h
    rw [List.takeWhile_cons_of_pos (h a (List.mem_cons_self a l))]
    rw [ih (fun c hc => h c (List.mem_cons_of_mem a hc))]

/-- Counterexample to the universal reading of the last part of claim
C1: the text contains the 7-character substring Query-space-3 at offset
8, before Query-space-7 at offset 16, yet the extractor returns 2 (the
first token occurrence), not 3. -/
theorem c1_counterexample :
    (("Query 2 Query 3 Query 7".data.drop 8).take 7 = "Query 3".data) ∧
      (("Query 2 Query 3 Query 7".data.drop 16).take 7 = "Query 7".data) ∧
      extract_query_number "Query 2 Query 3 Query 7" = some 2 ∧
      extract_query_number "Query 2 Query 3 Query 7" ≠ some 3 := by
  refine ⟨rfl, rfl, rfl, by decide⟩

/-- Amended claim C1: extract_query_number returns the base-10 integer
parsed from the digit run of the first start position carrying the
literal token Query-space followed by one or more decimal digits, and
none when no position carries such a token-integer pair; consequently a
text whose FIRST such token occurrence reads Query-space-3 yields 3
even when Query-space-7 occurs later. -/
theorem c1_extractor_first_match (s : String) (n : Nat) :
    (extract_query_number s = some n ↔
      ∃ i, specTokenAt (s.data.drop i) = some n ∧
        ∀ j, j < i → specTokenAt (s.data.drop j) = none) ∧
    (extract_query_number s = none ↔ ∀ i, specTokenAt (s.data.drop i) = none) ∧
    extract_query_number "The best is Query 3, not Query 7" = some 3 :=
  ⟨extractAux_eq_some_iff s.data n, extractAux_eq_none_iff s.data, rfl⟩

/-- Counterexample to claim C4: a tab (or a second space) between Query
and the digits does not match the source regex, which requires exactly
one literal space - the extractor returns none, not 7. -/
theorem c4_counterexample :
    extract_query_number "Query\t7" = none ∧
      extract_query_number "Query  7" = none ∧
      extract_query_number "Query\t7" ≠ some 7 := by
  refine ⟨rfl, rfl, by decide⟩

/-- A run whose elements all satisfy the test extends the maximal taken
run across an append. -/
theorem takeWhile_append_all {α : Type} (p : α → Bool) :
    ∀ l1 l2 : List α, (∀ c ∈ l1, p c) →
      (l1 ++ l2).takeWhile p = l1 ++ l2.takeWhile p := by
  intro l1
  induction l1 with
  | nil => intro l2 _; rfl
  | cons a l ih =>
    intro l2 h
    rw [List.cons_append, List.takeWhile_cons_of_pos (h a (List.mem_cons_self a l))]
    rw [ih l2 (fun c hc => h c (List.mem_cons_of_mem a hc)), List.cons_append]

/-- A list whose first element (if any) fails the test contributes
nothing to the taken run. -/
theorem takeWhile_nil_of_head {α : Type} (p : α → Bool) :
    ∀ rest : List α, (∀ c, rest.head? = some c → p c = false) →
      rest.takeWhile p = [] := by
  intro rest h
  cases rest with
  | nil => rfl
  | cons r rs =>
    exact List.takeWhile_cons_of_neg (by rw [h r rfl]; decide)

/-- Amended claim C4: only a single literal space between Query and the
digit run matches: for every text beginning with Query-space followed
by a nonempty decimal digit run d :: ds and then any continuation that
does not start with a further digit, the extractor returns that run
parsed base 10 (while the counterexample shows a tab or a double space
in place of the single space yields no match). -/
theorem c4_single_space_amended (d : Char) (ds rest : List Char)
    (hd : d.isDigit) (hds : ∀ c ∈ ds, c.isDigit)
    (hrest : ∀ c, rest.head? = some c → c.isDigit = false) :
    extract_query_number
        (String.mk ('Q' :: 'u' :: 'e' :: 'r' :: 'y' :: ' ' :: d :: (ds ++ rest))) =
      some (digitsVal (d :: ds)) := by
  have htw : (d :: (ds ++ rest)).takeWhile Char.isDigit = d :: ds := by
    rw [List.takeWhile_cons_of_pos hd, takeWhile_append_all Char.isDigit ds rest hds]
    rw [takeWhile_nil_of_head Char.isDigit rest hrest, List.append_nil]
  have hq : queryMatchAt ('Q' :: 'u' :: 'e' :: 'r' :: 'y' :: ' ' :: d :: (ds ++ rest)) =
      some (digitsVal (d :: ds)) := by
    simp only [queryMatchAt]
    rw [if_pos (by simp [hd]), htw]
  show extractAux ('Q' :: 'u' :: 'e' :: 'r' :: 'y' :: ' ' :: d :: (ds ++ rest)) =
    some (digitsVal (d :: ds))
  simp only [extractAux, hq]

/-- Witness for the amended C4 on a text with prose after the digit
run: Query-space-12 followed by a space and more words yields 12. -/
theorem c4_single_space_amended_witness :
    extract_query_number
        (String.mk ('Q' :: 'u' :: 'e' :: 'r' :: 'y' :: ' ' :: '1' ::
          (['2'] ++ " is best".data))) = some 12 := by
  have h := c4_single_space_amended '1' ['2'] (" is best".data) (by decide) (by decide)
    (by
      intro c hc
      have hc' : some ' ' = some c := hc
      injection hc' with hce
      rw [← hce]
      rfl)
  exact h

/-! ## Claim about prompt labels and ordering -/

/-- The accumulating loop over the enumerated candidates appends the
block of labeled lines to whatever has been accumulated so far. -/
theorem foldl_enumFrom_eq (l : List String) :
    ∀ (k : Nat) (init : String),
      ((l.enumFrom k).foldl
        (fun content p => content ++ ("Query " ++ toString (p.1 + 1) ++ ": " ++ p.2 ++ "\n"))
        init)
      = init ++ labeledLines k l := by
  induction l with
  | nil =>
    intro k init
    simp [labeledLines]
  | cons q qs ih =>
    intro k init
    rw [List.enumFrom_cons, List.foldl_cons, ih (k + 1)]
    rw [String.append_assoc]
    rfl

/-- build_comparison_prompt is the header followed by the block of
lines labeled 1, 2, ... in candidate order. -/
theorem build_eq_header_append (code : String) (subset : List String) :
    build_comparison_prompt code subset = promptHeader code ++ labeledLines 0 subset :=
  foldl_enumFrom_eq subset 0 (promptHeader code)

/-- Splitting the block of labeled lines around one candidate. -/
theorem labeledLines_append (l1 l2 : List String) :
    ∀ k, labeledLines k (l1 ++ l2) =
      labeledLines k l1 ++ labeledLines (k + l1.length) l2 := by
  induction l1 with
  | nil =>
    intro k
    simp [labeledLines]
  | cons q qs ih =>
    intro k
    simp only [List.cons_append, labeledLines, List.append_eq]
    rw [ih (k + 1), String.append_assoc]
    have harg : k + 1 + qs.length = k + (q :: qs).length := by
      simp [List.length_cons]
      omega
    rw [harg]

/-- The block of labeled lines exposes the line of the candidate at any
in-range 0-based position i, labeled i+1, between the lines of the
earlier and the later candidates. -/
theorem labeledLines_get (subset : List String) (i : Nat) (hi : i < subset.length) :
    labeledLines 0 subset =
      labeledLines 0 (subset.take i) ++
        (queryLine i (subset.get ⟨i, hi⟩) ++ labeledLines (i + 1) (subset.drop (i + 1))) := by
  conv_lhs => rw [← List.take_append_drop i subset, List.drop_eq_get_cons hi]
  rw [labeledLines_append]
  have hlen : (subset.take i).length = i := List.length_take_of_le (Nat.le_of_lt hi)
  rw [hlen, Nat.zero_add]
  rfl

/-- Claim C8: for every reference code and nonempty candidate list, the
built prompt is the header followed by the lines labeled 1..n in the
given order with no gaps, and in particular each candidate at 0-based
position i appears in the prompt as the line labeled i+1. -/
theorem c8_label_ordering (code : String) (subset : List String) (h : subset ≠ []) :
    build_comparison_prompt code subset = promptHeader code ++ labeledLines 0 subset ∧
      ∀ i, (hi : i < subset.length) →
        ∃ pre post, build_comparison_prompt code subset =
          pre ++ queryLine i (subset.get ⟨i, hi⟩) ++ post := by
  refine ⟨build_eq_header_append code subset, ?_⟩
  intro i hi
  refine ⟨promptHeader code ++ labeledLines 0 (subset.take i),
    labeledLines (i + 1) (subset.drop (i + 1)), ?_⟩
  rw [build_eq_header_append, labeledLines_get subset i hi]
  simp only [String.append_assoc]

/-- Witness for C8 on the two-candidate list. -/
theorem c8_label_ordering_witness :
    build_comparison_prompt "c" ["x", "y"] =
        promptHeader "c" ++ labeledLines 0 ["x", "y"] ∧
      ∃ pre post, build_comparison_prompt "c" ["x", "y"] =
        pre ++ queryLine 1 "y" ++ post := by
  have h := c8_label_ordering "c" ["x", "y"] (by decide)
  exact ⟨h.1, h.2 1 (by decide)⟩

/-! ## Claim about missing range validation in the Extractor -/

/-- Folding the base-10 parse over a run of zero digits multiplies the
accumulator by ten for each zero. -/
theorem foldl_zeros (K : Nat) : ∀ a : Nat,
    List.foldl (fun a c => 10 * a + (c.toNat - 48)) a (List.replicate K '0') =
      a * 10 ^ K := by
  induction K with
  | zero =>
    intro a
    simp
  | succ k ih =>
    intro a
    rw [List.replicate_succ, List.foldl_cons, ih]
    have hz : ('0'.toNat - 48) = 0 := rfl
    rw [hz, pow_succ]
    ring

/-- The digit string 1 followed by K zeros parses to 10 ^ K. -/
theorem digitsVal_one_zeros (K : Nat) :
    digitsVal ('1' :: List.replicate K '0') = 10 ^ K := by
  show List.foldl (fun a c => 10 * a + (c.toNat - 48)) 0 ('1' :: List.replicate K '0') =
    10 ^ K
  rw [List.foldl_cons]
  have h1 : (10 * 0 + ('1'.toNat - 48)) = 1 := rfl
  rw [h1, foldl_zeros, Nat.one_mul]

/-- Claim C10: the extractor performs no range validation - a text
containing Query-space-0 yields 0, and for every window size K there is
a response text whose extracted integer exceeds K (the text Query-space
followed by 1 and K zeros yields 10 ^ K > K). -/
theorem c10_no_range_validation :
    extract_query_number "Query 0" = some 0 ∧
      ∀ K : Nat, ∃ s n, extract_query_number s = some n ∧ K < n := by
  refine ⟨rfl, ?_⟩
  intro K
  refine ⟨String.mk ('Q' :: 'u' :: 'e' :: 'r' :: 'y' :: ' ' :: '1' :: List.replicate K '0'),
    10 ^ K, ?_, ?_⟩
  · have hall : ∀ c ∈ ('1' :: List.replicate K '0'), c.isDigit := by
      intro c hc
      rcases List.mem_cons.mp hc with h | h
      · rw [h]; rfl
      · rw [List.eq_of_mem_replicate h]; rfl
    have htw : ('1' :: List.replicate K '0').takeWhile Char.isDigit =
        '1' :: List.replicate K '0' :=
      takeWhile_all Char.isDigit ('1' :: List.replicate K '0') hall
    have hq : queryMatchAt ('Q' :: 'u' :: 'e' :: 'r' :: 'y' :: ' ' :: '1' ::
        List.replicate K '0') = some (10 ^ K) := by
      simp only [queryMatchAt]
      rw [if_pos (by simp), htw, digitsVal_one_zeros]
    show extractAux ('Q' :: 'u' :: 'e' :: 'r' :: 'y' :: ' ' :: '1' ::
      List.replicate K '0') = some (10 ^ K)
    simp only [extractAux, hq]
  · exact Nat.lt_pow_self (by norm_num) K
